import Mathlib

/-!
Verification of the diagram/document generation contract of the
cloudscape-examples repository (well-architected-intelligent-agent), together
with the repository's utility code (`Utils.copyDirRecursive`,
`FileUploadComponent`) and the CDK bucket configurations.

The two Lambda request handlers (`generate_architecture_diagram/app.py`,
`generate_pdf_documentation/app.py`) are declared in the repository only
through their OpenAPI schemas, READMEs and the CDK stacks that deploy them;
the Python bodies themselves are not part of the source tree.  Definitions for
those handlers are therefore modelled from the specification, as marked in
their doc comments.  Everything else (bucket configurations, the directory
copy utility, the file-upload component) is translated directly from the
source files.
-/

/-! ## Object store model -/

/-- Modelled from the spec: a `StoredArtifact` is a rendered output held in
the object store, with content bytes, a content type and a last-modified
timestamp.  Its byte size and storage reference are derived. -/
structure StoredArtifact where
  bytes : List Nat
  contentType : String
  lastModified : Nat
deriving DecidableEq, Repr

/-- Modelled from the spec: the object store maps generated reference strings
(opaque locators, keys) to stored artifacts.  Later entries are shadowed by
earlier ones, so `storePut` overrides. -/
abbrev ObjectStore := List (String × StoredArtifact)

/-- Modelled from the spec: `get(key) -> bytes|NotFound` on the object store. -/
def storeGet : ObjectStore → String → Option StoredArtifact
  | [], _ => none
  | (k, a) :: rest, key => if k = key then some a else storeGet rest key

/-- Modelled from the spec: `put(key, bytes, contentType) -> void` on the
object store. -/
def storePut (store : ObjectStore) (key : String) (a : StoredArtifact) :
    ObjectStore :=
  (key, a) :: store

/-- Modelled from the spec: the operations a handler may issue against the
object store collaborator (`put`, `get`, `head`). -/
inductive StoreOp where
  | put (key : String)
  | get (key : String)
  | head (key : String)
deriving DecidableEq, Repr

/-- Number of object-store writes in a trace of store operations. -/
def writeCount (ops : List StoreOp) : Nat :=
  ops.countP (fun op => match op with | .put _ => true | _ => false)

/-- Number of object-store reads (`get` or `head`) in a trace. -/
def readCount (ops : List StoreOp) : Nat :=
  ops.countP (fun op => match op with | .put _ => false | _ => true)

/-! ## Error taxonomy -/

/-- Modelled from the spec: the error taxonomy
`{InvalidInput, RenderFailure, StorageFailure, NotFound, UpstreamTimeout}`. -/
inductive ErrKind where
  | invalidInput
  | renderFailure
  | storageFailure
  | notFound
  | upstreamTimeout
deriving DecidableEq, Repr

/-- Modelled from the spec: `InvalidInput` and `RenderFailure` (and the
detail lookup's `NotFound`) surface as 4xx-equivalent caller errors, while
`StorageFailure` and `UpstreamTimeout` surface as 5xx-equivalent
infrastructure errors. -/
def statusClass : ErrKind → Nat
  | .invalidInput => 4
  | .renderFailure => 4
  | .notFound => 4
  | .storageFailure => 5
  | .upstreamTimeout => 5

/-! ## Diagram generation handler (modelled) -/

/-- Modelled from the spec: the environment of one `generateDiagram`
invocation — the outcome of the external graph-layout renderer (`none` is a
rendering failure), the availability of the object store for the upload, and
the freshly generated key for this call. -/
structure DiagramEnv where
  renderResult : Option (List Nat)
  storeAvailable : Bool
  freshKey : String

/-- Successful `generateDiagram` response: exactly the required `diagramUrl`
field (schema.json of generate_architecture_diagram). -/
structure DiagramResponse where
  diagramUrl : String
deriving DecidableEq, Repr

/-- Modelled from the spec: `generateDiagram(description, services)` —
validates that `services` is non-empty, invokes the graph-layout renderer,
uploads the image under the freshly generated key and returns the reference.
The Python handler body is not in the source tree.  Returns the response or
error, the resulting store, and the trace of store operations. -/
def generateDiagram (env : DiagramEnv) (store : ObjectStore)
    (_description : String) (services : List String) (now : Nat) :
    Except ErrKind DiagramResponse × ObjectStore × List StoreOp :=
  if services = [] then
    (.error .invalidInput, store, [])
  else
    match env.renderResult with
    | none => (.error .renderFailure, store, [])
    | some bs =>
      if env.storeAvailable then
        (.ok ⟨env.freshKey⟩,
          storePut store env.freshKey ⟨bs, "image/png", now⟩,
          [.put env.freshKey])
      else
        (.error .storageFailure, store, [.put env.freshKey])

/-! ## PDF documentation handler (modelled) -/

/-- Modelled from the spec: the environment of one `generatePDFDocumentation`
invocation — the document-layout renderer as a black box (Markdown text and
optionally embedded image bytes to paginated document bytes, `none` is a
rendering failure), store availability, and the freshly generated key. -/
structure PdfEnv where
  renderDoc : String → Option (List Nat) → Option (List Nat)
  storeAvailable : Bool
  freshKey : String

/-- Modelled from the spec: `generatePDFDocumentation(documentation,
linkToArchitecture?) -> boolean`.  The optional architecture link is fetched
best-effort: a link that does not resolve is skipped rather than failing the
request.  The Python handler body is not in the source tree. -/
def generatePDFDocumentation (env : PdfEnv) (store : ObjectStore)
    (documentation : String) (linkToArchitecture : Option String)
    (now : Nat) :
    Except ErrKind Bool × ObjectStore × List StoreOp :=
  let embedded : Option (List Nat) :=
    match linkToArchitecture with
    | none => none
    | some ref => (storeGet store ref).map StoredArtifact.bytes
  let getOps : List StoreOp :=
    match linkToArchitecture with
    | none => []
    | some ref => [.get ref]
  match env.renderDoc documentation embedded with
  | none => (.error .renderFailure, store, getOps)
  | some pdf =>
    if env.storeAvailable then
      (.ok true,
        storePut store env.freshKey ⟨pdf, "application/pdf", now⟩,
        getOps ++ [.put env.freshKey])
    else
      (.error .storageFailure, store, getOps ++ [.put env.freshKey])

/-- Modelled from the spec: the image bytes a `generatePDFDocumentation`
call hands to the document renderer for a given architecture link — the
best-effort fetch of the linked diagram (the same lookup the handler
performs). -/
def pdfEmbedded (store : ObjectStore) (linkToArchitecture : Option String) :
    Option (List Nat) :=
  match linkToArchitecture with
  | none => none
  | some ref => (storeGet store ref).map StoredArtifact.bytes

/-- Detail record returned by `getPDFDocumentationDetail` (README of
generate_pdf_documentation: reference, content type, size in bytes,
last-modified, status). -/
structure PdfDetail where
  s3Uri : String
  contentType : String
  sizeBytes : Nat
  lastModified : Nat
  status : String
deriving DecidableEq, Repr

/-- Modelled from the spec: `getPDFDocumentationDetail(s3Uri)` — returns the
stored artifact's metadata without re-rendering, or a `NotFound` condition
when the reference does not resolve.  The Python handler body is not in the
source tree. -/
def getPDFDocumentationDetail (store : ObjectStore) (s3Uri : String) :
    Except ErrKind PdfDetail × List StoreOp :=
  match storeGet store s3Uri with
  | some a =>
    (.ok ⟨s3Uri, a.contentType, a.bytes.length, a.lastModified, "AVAILABLE"⟩,
      [.head s3Uri])
  | none => (.error .notFound, [.head s3Uri])

/-- Health response shape: `{status, timestamp, credentialsValid,
bucketConfigured}` (Contract C of the spec; README `/health`). -/
structure HealthResponse where
  status : String
  timestamp : Nat
  credentialsValid : Bool
  bucketConfigured : Bool
deriving DecidableEq, Repr

/-- Modelled from the spec: `health()` — reports whether the handler can
authenticate to the object store and whether a target bucket is configured.
The Python handler body is not in the source tree. -/
def health (credentialsValid : Bool) (bucket : Option String) (now : Nat) :
    HealthResponse :=
  ⟨if credentialsValid && bucket.isSome then "healthy" else "unhealthy",
    now, credentialsValid, bucket.isSome⟩

/-! ## Bucket configurations (translated from the CDK stacks) -/

/-- An S3 lifecycle rule as configured in the stacks (only the expiration is
set there). -/
structure LifecycleRule where
  expirationDays : Nat
deriving DecidableEq, Repr

/-- Bucket properties appearing in the repository's stacks.  Fields that a
stack does not set keep the CDK defaults (`false` / no rules). -/
structure BucketProps where
  removalPolicyDestroy : Bool
  autoDeleteObjects : Bool
  blockPublicAccess : Bool
  enforceSSL : Bool
  versioned : Bool
  encryptionS3Managed : Bool
  lifecycleRules : List LifecycleRule
deriving DecidableEq, Repr

/-- `diagramBucket` of `DiagramGeneratorStack`
(stacks/diagram-generator-stack.ts lines 13-24): removal policy DESTROY,
auto-delete, S3-managed encryption, SSL enforced, versioned, and a lifecycle
rule expiring objects after 7 days. -/
def diagramBucketProps : BucketProps :=
  { removalPolicyDestroy := true
    autoDeleteObjects := true
    blockPublicAccess := false
    enforceSSL := true
    versioned := true
    encryptionS3Managed := true
    lifecycleRules := [⟨7⟩] }

/-- `outputBucket` of `BedrockStack` (src/unnamed/part_001 lines 451-455):
removal policy DESTROY, auto-delete, public access blocked — and no
lifecycle rules at all. -/
def outputBucketProps : BucketProps :=
  { removalPolicyDestroy := true
    autoDeleteObjects := true
    blockPublicAccess := true
    enforceSSL := false
    versioned := false
    encryptionS3Managed := false
    lifecycleRules := [] }

/-- The bucket the deployed diagram handler writes to: `BedrockStack` wires
`S3_BUCKET` of `DiagramGeneratorFunction` to `outputBucket`
(src/unnamed/part_001 lines 458-469). -/
def agentDiagramGeneratorBucket : BucketProps := outputBucketProps

/-- The bucket the deployed PDF handler writes to: `BedrockStack` wires
`OUTPUT_BUCKET` of `PDFGeneratorFunction` to `outputBucket`
(src/unnamed/part_001 lines 471-482). -/
def pdfGeneratorBucket : BucketProps := outputBucketProps

/-- A bucket enforces the 7-day retention window iff one of its lifecycle
rules expires objects after 7 days. -/
def enforcesSevenDayRetention (b : BucketProps) : Prop :=
  ∃ r ∈ b.lifecycleRules, r.expirationDays = 7

instance (b : BucketProps) : Decidable (enforcesSevenDayRetention b) :=
  inferInstanceAs (Decidable (∃ r ∈ b.lifecycleRules, r.expirationDays = 7))

/-! ## FileUploadComponent (translated from chat-ui-fileupload, in the
concatenated lib/utils.js source, lines 187-201) -/

/-- A file as seen by the upload component: only name and byte size matter to
`handleFileChange`. -/
structure UIFile where
  name : String
  size : Nat
deriving DecidableEq, Repr

/-- Component state: the selected file and the error message (empty string
for no error, matching the `useState<string>("")` initialisation). -/
structure FileUploadState where
  selectedFile : Option UIFile
  error : String
deriving DecidableEq, Repr

/-- Default of the `maxFileSizeMB` prop (`maxFileSizeMB = 10`). -/
def defaultMaxFileSizeMB : Nat := 10

/-- `handleFileChange` of `FileUploadComponent`: takes the chosen files of
the input event; clears the error; if a file is present and strictly exceeds
`maxFileSizeMB * 1024 * 1024` bytes it sets the error message and returns
early, otherwise it selects the file and invokes `onFileSelect`.  The second
component of the result is the list of `onFileSelect` invocations. -/
def handleFileChange (maxFileSizeMB : Nat) (st : FileUploadState)
    (files : List UIFile) : FileUploadState × List UIFile :=
  let st1 : FileUploadState := { st with error := "" }
  match files.head? with
  | none => (st1, [])
  | some file =>
    if file.size > maxFileSizeMB * 1024 * 1024 then
      ({ st1 with
          error := "File size must be less than " ++ toString maxFileSizeMB
            ++ "MB" }, [])
    else
      ({ st1 with selectedFile := some file }, [file])

/-! ## Filesystem model for Utils.copyDirRecursive (lib/utils.js lines 6-24) -/

/-- A filesystem node: a regular file with some content, or a directory.
Directory contents are recovered from the path map. -/
inductive FsNode where
  | file (content : Nat)
  | dir
deriving DecidableEq, Repr

/-- An absolute path, as the list of its segments. -/
abbrev FsPath := List String

/-- The filesystem: a finite map from absolute paths to nodes.  The root `[]`
is an implicit directory and never stored. -/
structure FS where
  entries : List (FsPath × FsNode)
deriving DecidableEq, Repr

/-- First entry for a path in an entry list. -/
def getEntry : List (FsPath × FsNode) → FsPath → Option FsNode
  | [], _ => none
  | (q, n) :: rest, p => if q = p then some n else getEntry rest p

/-- The node at a path; the root is always a directory. -/
def getNode (fs : FS) (p : FsPath) : Option FsNode :=
  if p = [] then some .dir else getEntry fs.entries p

/-- Drop every entry for a path. -/
def removeKey (l : List (FsPath × FsNode)) (p : FsPath) :
    List (FsPath × FsNode) :=
  l.filter (fun e => !decide (e.1 = p))

/-- Write a node at a path, replacing whatever was there. -/
def setNode (fs : FS) (p : FsPath) (n : FsNode) : FS :=
  ⟨(p, n) :: removeKey fs.entries p⟩

/-- `path.join(dir, file)` of the source: one further path segment. -/
def joinPath (p : FsPath) (seg : String) : FsPath := p ++ [seg]

/-- The containing directory of a path. -/
def parentDir (p : FsPath) : FsPath := p.dropLast

/-- Errors the modelled `node:fs` calls can raise, plus fuel exhaustion of
the embedding (the JS recursion is unbounded). -/
inductive FsErr where
  | noParent
  | alreadyExists
  | sourceMissing
  | targetIsDir
  | fuelOut
deriving DecidableEq, Repr

/-- `fs.existsSync`. -/
def existsSync (fs : FS) (p : FsPath) : Bool := (getNode fs p).isSome

/-- `fs.mkdirSync` without `recursive`: fails when the path already exists or
its containing directory is missing or not a directory. -/
def mkdirSync (fs : FS) (p : FsPath) : Except FsErr FS :=
  if p = [] then .error .alreadyExists
  else if (getNode fs p).isSome then .error .alreadyExists
  else if getNode fs (parentDir p) = some .dir then .ok (setNode fs p .dir)
  else .error .noParent

/-- `fs.copyFileSync`: the source must be a regular file, the target's
containing directory must be a directory, and the target must not itself be a
directory; an existing target file is overwritten. -/
def copyFileSync (fs : FS) (src tgt : FsPath) : Except FsErr FS :=
  match getNode fs src with
  | some (.file c) =>
    if tgt = [] then .error .targetIsDir
    else if getNode fs tgt = some FsNode.dir then .error .targetIsDir
    else if getNode fs (parentDir tgt) = some FsNode.dir then
      .ok (setNode fs tgt (.file c))
    else .error .noParent
  | _ => .error .sourceMissing

/-- The name `n` such that `q = p ++ [n]`, if there is one. -/
def stripChild : FsPath → FsPath → Option String
  | [], [n] => some n
  | a :: p, b :: q => if a = b then stripChild p q else none
  | _, _ => none

/-- `fs.readdirSync`: the names of the entries directly inside a directory,
in entry order; fails when the path is not an existing directory. -/
def readdirSync (fs : FS) (p : FsPath) : Except FsErr (List String) :=
  if getNode fs p = some FsNode.dir then
    .ok (fs.entries.filterMap (fun e => stripChild p e.1))
  else .error .sourceMissing

mutual

/-- `Utils.copyDirRecursive(sourceDir, targetDir)` (lib/utils.js lines 6-24):
creates `targetDir` when it does not exist, lists `sourceDir`, and copies
each entry — recursively for directories, by `copyFileSync` for files.  The
JS recursion is unbounded, so the embedding carries fuel; `.error .fuelOut`
stands for a call that has not finished within the given recursion budget. -/
def copyDirRecursive (fuel : Nat) (fs : FS) (sourceDir targetDir : FsPath) :
    Except FsErr FS :=
  match fuel with
  | 0 => .error .fuelOut
  | fuel + 1 =>
    match (if existsSync fs targetDir then Except.ok fs
           else mkdirSync fs targetDir) with
    | .error e => .error e
    | .ok fs1 =>
      match readdirSync fs1 sourceDir with
      | .error e => .error e
      | .ok files => copyDirEntries fuel fs1 sourceDir targetDir files
termination_by (fuel, 0)

/-- The `for (const file of files)` loop body of `Utils.copyDirRecursive`:
`statSync` each entry, recurse on directories, `copyFileSync` files. -/
def copyDirEntries (fuel : Nat) (fs : FS) (sourceDir targetDir : FsPath) :
    List String → Except FsErr FS
  | [] => .ok fs
  | file :: rest =>
    match getNode fs (joinPath sourceDir file) with
    | none => .error .sourceMissing
    | some .dir =>
      match copyDirRecursive fuel fs (joinPath sourceDir file)
          (joinPath targetDir file) with
      | .error e => .error e
      | .ok fs2 => copyDirEntries fuel fs2 sourceDir targetDir rest
    | some (.file _) =>
      match copyFileSync fs (joinPath sourceDir file)
          (joinPath targetDir file) with
      | .error e => .error e
      | .ok fs2 => copyDirEntries fuel fs2 sourceDir targetDir rest
termination_by l => (fuel, l.length + 1)

end

/-! ## Well-formedness and measures for the filesystem model -/

/-- A filesystem is well formed when no entry sits at the root path, every
entry's containing directory exists as a directory, and no path has two
entries. -/
def wfFS (fs : FS) : Prop :=
  (∀ e ∈ fs.entries, e.1 ≠ [] ∧ getNode fs (parentDir e.1) = some FsNode.dir)
    ∧ (fs.entries.map Prod.fst).Nodup

instance (fs : FS) : Decidable (wfFS fs) := by
  unfold wfFS; infer_instance

/-- Number of entries lying at or below a path. -/
def subtreeCount (fs : FS) (p : FsPath) : Nat :=
  (fs.entries.filter (fun e => decide (p <+: e.1))).length

/-- What claim C9 states about one call of `Utils.copyDirRecursive` on an
existing source directory: the call finishes successfully, `targetDir`
exists as a directory afterwards, the target contains a copy of every file
and every subdirectory of the source, recursively, and the source subtree is
unchanged. -/
def copyDirClaim (fs : FS) (sourceDir targetDir : FsPath) : Prop :=
  ∃ fuel fsOut, copyDirRecursive fuel fs sourceDir targetDir = .ok fsOut ∧
    getNode fsOut targetDir = some FsNode.dir ∧
    (∀ rel node, getNode fs (sourceDir ++ rel) = some node →
      getNode fsOut (targetDir ++ rel) = some node) ∧
    (∀ rel, getNode fsOut (sourceDir ++ rel) = getNode fs (sourceDir ++ rel))

/-- Concrete filesystem for settling C9: the directory `/a` holds one file;
nothing exists at or under `/x`. -/
def fsMissingParent : FS := ⟨[(["a"], FsNode.dir), (["a", "f"], FsNode.file 1)]⟩

/-- Concrete filesystem for the C9 witness: `/a` holds a file and a
subdirectory containing a further file. -/
def fsCopyDemo : FS :=
  ⟨[(["a"], FsNode.dir), (["a", "f"], FsNode.file 1),
    (["a", "d"], FsNode.dir), (["a", "d", "g"], FsNode.file 2)]⟩

/-! ## Store lemmas -/

/-- Reading a key after a put: the put key returns the new artifact, every
other key is unchanged. -/
theorem storeGet_storePut (store : ObjectStore) (k q : String)
    (a : StoredArtifact) :
    storeGet (storePut store k a) q
      = if k = q then some a else storeGet store q := rfl

/-! ## Claim C1 -/

/-- C1: for every call of `generateDiagram` with a description and a
non-empty services list (whose rendering succeeds with non-empty image bytes
and whose upload is accepted), the successful response carries exactly one
artifact reference — the required `diagramUrl` field — and that reference
resolves via the object store to non-empty image bytes. -/
theorem generateDiagram_returns_resolving_reference
    (env : DiagramEnv) (store : ObjectStore) (description : String)
    (services : List String) (now : Nat) (bs : List Nat)
    (hserv : services ≠ [])
    (hrender : env.renderResult = some bs) (hbs : bs ≠ [])
    (hstore : env.storeAvailable = true) :
    (generateDiagram env store description services now).1
        = .ok ⟨env.freshKey⟩ ∧
    ∃ a, storeGet (generateDiagram env store description services now).2.1
          env.freshKey = some a ∧ a.bytes ≠ [] := by
  unfold generateDiagram
  simp [hserv, hrender, hstore, storeGet_storePut, storePut, storeGet]
  exact hbs

/-- Witness for C1 at a concrete call. -/
theorem generateDiagram_returns_resolving_reference_witness :
    (generateDiagram ⟨some [7], true, "k1"⟩ [] "three-tier web app"
        ["ELB", "EC2", "RDS"] 0).1 = .ok ⟨"k1"⟩ ∧
    ∃ a, storeGet (generateDiagram ⟨some [7], true, "k1"⟩ []
          "three-tier web app" ["ELB", "EC2", "RDS"] 0).2.1 "k1" = some a ∧
        a.bytes ≠ [] :=
  generateDiagram_returns_resolving_reference ⟨some [7], true, "k1"⟩ []
    "three-tier web app" ["ELB", "EC2", "RDS"] 0 [7]
    (by decide) rfl (by decide) rfl

/-! ## Claim C2 -/

/-- C2: for every Markdown input without an architecture link (whose
rendering succeeds and whose upload is accepted),
`generatePDFDocumentation` returns the boolean success flag `true`, and a
subsequent `getPDFDocumentationDetail` on the produced reference returns
status "AVAILABLE" with content type `application/pdf`. -/
theorem generatePDFDocumentation_true_and_available
    (env : PdfEnv) (store : ObjectStore) (documentation : String) (now : Nat)
    (pdf : List Nat)
    (hrender : env.renderDoc documentation none = some pdf)
    (hstore : env.storeAvailable = true) :
    (generatePDFDocumentation env store documentation none now).1
        = .ok true ∧
    (getPDFDocumentationDetail
        (generatePDFDocumentation env store documentation none now).2.1
        env.freshKey).1
      = .ok ⟨env.freshKey, "application/pdf", pdf.length, now, "AVAILABLE"⟩ := by
  unfold generatePDFDocumentation getPDFDocumentationDetail
  simp [hrender, hstore, storePut, storeGet]

/-- Witness for C2 at a concrete call. -/
theorem generatePDFDocumentation_true_and_available_witness :
    (generatePDFDocumentation ⟨fun _ _ => some [3, 4], true, "k2"⟩ []
        "# Title" none 9).1 = .ok true ∧
    (getPDFDocumentationDetail
        (generatePDFDocumentation ⟨fun _ _ => some [3, 4], true, "k2"⟩ []
          "# Title" none 9).2.1 "k2").1
      = .ok ⟨"k2", "application/pdf", 2, 9, "AVAILABLE"⟩ :=
  generatePDFDocumentation_true_and_available
    ⟨fun _ _ => some [3, 4], true, "k2"⟩ [] "# Title" 9 [3, 4] rfl rfl

/-! ## Claim C3 -/

/-- C3: `getPDFDocumentationDetail` on a resolving reference returns the
stored artifact's metadata with a single metadata read and no writes (no
re-rendering); on a non-resolving reference it returns the `NotFound`
condition, never a crash (the result is always either metadata or
`NotFound`); and neither `generateDiagram` nor `generatePDFDocumentation`
ever returns `NotFound`. -/
theorem getPDFDocumentationDetail_spec (store : ObjectStore) (uri : String) :
    (∀ a, storeGet store uri = some a →
      (getPDFDocumentationDetail store uri).1
        = .ok ⟨uri, a.contentType, a.bytes.length, a.lastModified,
            "AVAILABLE"⟩) ∧
    (storeGet store uri = none →
      (getPDFDocumentationDetail store uri).1 = .error .notFound) ∧
    (getPDFDocumentationDetail store uri).2 = [.head uri] ∧
    ((∃ d, (getPDFDocumentationDetail store uri).1 = .ok d) ∨
      (getPDFDocumentationDetail store uri).1 = .error .notFound) ∧
    (∀ env st d s now,
      (generateDiagram env st d s now).1 ≠ .error .notFound) ∧
    (∀ env st d l now,
      (generatePDFDocumentation env st d l now).1 ≠ .error .notFound) := by
  refine ⟨?_, ?_, ?_, ?_, ?_, ?_⟩
  · intro a ha
    simp [getPDFDocumentationDetail, ha]
  · intro ha
    simp [getPDFDocumentationDetail, ha]
  · unfold getPDFDocumentationDetail
    cases storeGet store uri <;> simp
  · unfold getPDFDocumentationDetail
    cases h : storeGet store uri <;> simp
  · intro env st d s now
    unfold generateDiagram
    split
    all_goals try split
    all_goals try split
    all_goals simp
  · intro env st d l now
    unfold generatePDFDocumentation
    cases l with
    | none =>
      cases hre : env.renderDoc d none <;>
        cases hsa : env.storeAvailable <;> simp [hre, hsa]
    | some ref =>
      cases hre :
          env.renderDoc d (Option.map StoredArtifact.bytes (storeGet st ref)) <;>
        cases hsa : env.storeAvailable <;> simp [hre, hsa]

/-- Witness for C3 at concrete references. -/
theorem getPDFDocumentationDetail_spec_witness :
    (getPDFDocumentationDetail
        [("s3://b/doc.pdf", ⟨[1, 2], "application/pdf", 5⟩)]
        "s3://b/doc.pdf").1
      = .ok ⟨"s3://b/doc.pdf", "application/pdf", 2, 5, "AVAILABLE"⟩ ∧
    (getPDFDocumentationDetail [] "missing").1 = .error .notFound :=
  ⟨(getPDFDocumentationDetail_spec
        [("s3://b/doc.pdf", ⟨[1, 2], "application/pdf", 5⟩)]
        "s3://b/doc.pdf").1 ⟨[1, 2], "application/pdf", 5⟩ rfl,
    (getPDFDocumentationDetail_spec [] "missing").2.1 rfl⟩

/-! ## Claim C4 -/

/-- C4: when `linkToArchitecture` is present but does not resolve to a
stored artifact, `generatePDFDocumentation` skips the embed step and the
result (success flag and resulting store) is the same as if no link had been
supplied: embedding is best-effort. -/
theorem generatePDFDocumentation_missing_link_best_effort
    (env : PdfEnv) (store : ObjectStore) (documentation : String)
    (uri : String) (now : Nat)
    (hmiss : storeGet store uri = none) :
    (generatePDFDocumentation env store documentation (some uri) now).1
        = (generatePDFDocumentation env store documentation none now).1 ∧
    (generatePDFDocumentation env store documentation (some uri) now).2.1
        = (generatePDFDocumentation env store documentation none now).2.1 := by
  unfold generatePDFDocumentation
  cases hre : env.renderDoc documentation none <;>
    cases hsa : env.storeAvailable <;> simp [hmiss, hre, hsa]

/-- Witness for C4 at a concrete call whose link does not resolve. -/
theorem generatePDFDocumentation_missing_link_best_effort_witness :
    (generatePDFDocumentation ⟨fun _ _ => some [9], true, "k3"⟩ []
        "# Doc" (some "s3://nope") 1).1
      = (generatePDFDocumentation ⟨fun _ _ => some [9], true, "k3"⟩ []
          "# Doc" none 1).1 ∧
    (generatePDFDocumentation ⟨fun _ _ => some [9], true, "k3"⟩ []
        "# Doc" (some "s3://nope") 1).2.1
      = (generatePDFDocumentation ⟨fun _ _ => some [9], true, "k3"⟩ []
          "# Doc" none 1).2.1 :=
  generatePDFDocumentation_missing_link_best_effort
    ⟨fun _ _ => some [9], true, "k3"⟩ [] "# Doc" "s3://nope" 1 rfl

/-! ## Claim C5 -/

/-- C5 counterexample: the claim asserts a 7-day retention window for every
artifact produced by either handler, but the `BedrockStack` output bucket —
the bucket both deployed handlers write to — configures no lifecycle
expiration at all. -/
theorem outputBucket_no_retention_counterexample :
    ¬ enforcesSevenDayRetention pdfGeneratorBucket ∧
    ¬ enforcesSevenDayRetention agentDiagramGeneratorBucket ∧
    pdfGeneratorBucket.lifecycleRules = [] := by decide

/-- C5 (amended): stored artifacts are never mutated in place — a call of
either handler with a fresh key leaves every previously stored artifact
unchanged — and the fixed 7-day expiration is configured only on the
`DiagramGeneratorStack` diagram bucket; the `BedrockStack` output bucket
used by both deployed handlers has no lifecycle expiration. -/
theorem artifacts_immutable_and_retention_only_diagram_stack
    (denv : DiagramEnv) (env : PdfEnv) (store1 store2 : ObjectStore)
    (d doc : String) (s : List String) (l : Option String) (n1 n2 : Nat)
    (hf1 : storeGet store1 denv.freshKey = none)
    (hf2 : storeGet store2 env.freshKey = none) :
    enforcesSevenDayRetention diagramBucketProps ∧
    ¬ enforcesSevenDayRetention pdfGeneratorBucket ∧
    ¬ enforcesSevenDayRetention agentDiagramGeneratorBucket ∧
    (∀ k a, storeGet store1 k = some a →
      storeGet (generateDiagram denv store1 d s n1).2.1 k = some a) ∧
    (∀ k a, storeGet store2 k = some a →
      storeGet (generatePDFDocumentation env store2 doc l n2).2.1 k
        = some a) := by
  refine ⟨by decide, by decide, by decide, ?_, ?_⟩
  · intro k a hk
    unfold generateDiagram
    split
    · exact hk
    · split
      · exact hk
      · split
        · rw [storeGet_storePut]
          have : denv.freshKey ≠ k := fun h => by rw [h, hk] at hf1; cases hf1
          simp [this, hk]
        · exact hk
  · intro k a hk
    unfold generatePDFDocumentation
    have hne : env.freshKey ≠ k := fun h => by rw [h, hk] at hf2; cases hf2
    cases l with
    | none =>
      cases hre : env.renderDoc doc none <;>
        cases hsa : env.storeAvailable <;>
        simp [hre, hsa, storeGet_storePut, hne, hk]
    | some ref =>
      cases hre :
          env.renderDoc doc (Option.map StoredArtifact.bytes
            (storeGet store2 ref)) <;>
        cases hsa : env.storeAvailable <;>
        simp [hre, hsa, storeGet_storePut, hne, hk]

/-- Witness for the amended C5 at concrete calls with fresh keys. -/
theorem artifacts_immutable_and_retention_witness :
    enforcesSevenDayRetention diagramBucketProps ∧
    ¬ enforcesSevenDayRetention pdfGeneratorBucket ∧
    ¬ enforcesSevenDayRetention agentDiagramGeneratorBucket ∧
    (∀ k a, storeGet [("old", ⟨[1], "image/png", 0⟩)] k = some a →
      storeGet (generateDiagram ⟨some [7], true, "new1"⟩
          [("old", ⟨[1], "image/png", 0⟩)] "d" ["EC2"] 3).2.1 k = some a) ∧
    (∀ k a, storeGet [("old", ⟨[1], "image/png", 0⟩)] k = some a →
      storeGet (generatePDFDocumentation ⟨fun _ _ => some [2], true, "new2"⟩
          [("old", ⟨[1], "image/png", 0⟩)] "# D" none 4).2.1 k = some a) :=
  artifacts_immutable_and_retention_only_diagram_stack
    ⟨some [7], true, "new1"⟩ ⟨fun _ _ => some [2], true, "new2"⟩
    [("old", ⟨[1], "image/png", 0⟩)] [("old", ⟨[1], "image/png", 0⟩)]
    "d" "# D" ["EC2"] none 3 4 rfl rfl

/-! ## Claim C6 -/

/-- C6: a rendering-engine failure is reported as `RenderFailure`
(4xx-equivalent, caller error) and an object-store failure as
`StorageFailure` (5xx-equivalent, infrastructure), in both handlers, and the
two classes differ, so a caller can always distinguish an unrenderable input
from unavailable storage. -/
theorem render_and_storage_failures_distinguished :
    statusClass .renderFailure = 4 ∧ statusClass .invalidInput = 4 ∧
    statusClass .storageFailure = 5 ∧ statusClass .upstreamTimeout = 5 ∧
    statusClass .renderFailure ≠ statusClass .storageFailure ∧
    (∀ (env : DiagramEnv) store d s now, s ≠ [] →
      env.renderResult = none →
      (generateDiagram env store d s now).1 = .error .renderFailure) ∧
    (∀ (env : DiagramEnv) store d s now bs, s ≠ [] →
      env.renderResult = some bs → env.storeAvailable = false →
      (generateDiagram env store d s now).1 = .error .storageFailure) ∧
    (∀ (env : PdfEnv) store d l now,
      env.renderDoc d (pdfEmbedded store l) = none →
      (generatePDFDocumentation env store d l now).1
        = .error .renderFailure) ∧
    (∀ (env : PdfEnv) store d l now pdf,
      env.renderDoc d (pdfEmbedded store l) = some pdf →
      env.storeAvailable = false →
      (generatePDFDocumentation env store d l now).1
        = .error .storageFailure) := by
  refine ⟨rfl, rfl, rfl, rfl, by decide, ?_, ?_, ?_, ?_⟩
  · intro env store d s now hs hr
    unfold generateDiagram
    simp [hs, hr]
  · intro env store d s now bs hs hr hsa
    unfold generateDiagram
    simp [hs, hr, hsa]
  · intro env store d l now hr
    unfold generatePDFDocumentation
    cases l with
    | none =>
      simp only [pdfEmbedded] at hr
      simp [hr]
    | some ref =>
      simp only [pdfEmbedded] at hr
      simp [hr]
  · intro env store d l now pdf hr hsa
    unfold generatePDFDocumentation
    cases l with
    | none =>
      simp only [pdfEmbedded] at hr
      simp [hr, hsa]
    | some ref =>
      simp only [pdfEmbedded] at hr
      simp [hr, hsa]

/-- Witness for C6 at concrete failing calls of both handlers, with and
without an architecture link. -/
theorem render_and_storage_failures_distinguished_witness :
    (generateDiagram ⟨none, true, "k4"⟩ [] "d" ["EC2"] 0).1
        = .error .renderFailure ∧
    (generateDiagram ⟨some [1], false, "k4"⟩ [] "d" ["EC2"] 0).1
        = .error .storageFailure ∧
    (generatePDFDocumentation ⟨fun _ _ => none, true, "k5"⟩ [] "# D" none 0).1
        = .error .renderFailure ∧
    (generatePDFDocumentation ⟨fun _ _ => some [1], false, "k5"⟩ []
        "# D" none 0).1 = .error .storageFailure ∧
    (generatePDFDocumentation ⟨fun _ _ => none, true, "k5"⟩ [] "# D"
        (some "s3://img") 0).1 = .error .renderFailure ∧
    (generatePDFDocumentation ⟨fun _ _ => some [1], false, "k5"⟩ [] "# D"
        (some "s3://img") 0).1 = .error .storageFailure :=
  ⟨render_and_storage_failures_distinguished.2.2.2.2.2.1
      ⟨none, true, "k4"⟩ [] "d" ["EC2"] 0 (by decide) rfl,
    render_and_storage_failures_distinguished.2.2.2.2.2.2.1
      ⟨some [1], false, "k4"⟩ [] "d" ["EC2"] 0 [1] (by decide) rfl rfl,
    render_and_storage_failures_distinguished.2.2.2.2.2.2.2.1
      ⟨fun _ _ => none, true, "k5"⟩ [] "# D" none 0 rfl,
    render_and_storage_failures_distinguished.2.2.2.2.2.2.2.2
      ⟨fun _ _ => some [1], false, "k5"⟩ [] "# D" none 0 [1] rfl rfl,
    render_and_storage_failures_distinguished.2.2.2.2.2.2.2.1
      ⟨fun _ _ => none, true, "k5"⟩ [] "# D" (some "s3://img") 0 rfl,
    render_and_storage_failures_distinguished.2.2.2.2.2.2.2.2
      ⟨fun _ _ => some [1], false, "k5"⟩ [] "# D" (some "s3://img") 0 [1]
      rfl rfl⟩

/-! ## Claim C7 -/

/-- C7: `health()` returns a record with exactly the fields `status`,
`timestamp`, `credentialsValid` and `bucketConfigured` (the
`HealthResponse` structure), and repeated calls under unchanged credentials
and bucket configuration return the same status. -/
theorem health_shape_and_idempotent (c : Bool) (b : Option String) :
    (∀ t, health c b t
      = HealthResponse.mk
          (if c && b.isSome then "healthy" else "unhealthy") t c b.isSome) ∧
    (∀ t₁ t₂, (health c b t₁).status = (health c b t₂).status) :=
  ⟨fun _ => rfl, fun _ _ => rfl⟩

/-! ## Claim C8 -/

/-- C8 counterexample: the claim says every `generateDiagram` call performs
exactly one object-store write, but a call whose rendering fails performs
none. -/
theorem generateDiagram_one_write_counterexample :
    writeCount (generateDiagram ⟨none, true, "fresh"⟩ [] "desc"
        ["EC2"] 0).2.2 ≠ 1 := by decide

/-- C8 (amended): every successful `generateDiagram` call performs exactly
one object-store write and no reads, leaves every previously stored
artifact unchanged, and the key written is the freshly generated identifier,
unused by any prior call. -/
theorem generateDiagram_frame_effect
    (env : DiagramEnv) (store : ObjectStore) (d : String)
    (s : List String) (now : Nat) (bs : List Nat)
    (hs : s ≠ []) (hr : env.renderResult = some bs)
    (hsa : env.storeAvailable = true)
    (hfresh : storeGet store env.freshKey = none) :
    (generateDiagram env store d s now).2.2 = [.put env.freshKey] ∧
    writeCount (generateDiagram env store d s now).2.2 = 1 ∧
    readCount (generateDiagram env store d s now).2.2 = 0 ∧
    (∀ k a, storeGet store k = some a →
      storeGet (generateDiagram env store d s now).2.1 k = some a) ∧
    storeGet (generateDiagram env store d s now).2.1 env.freshKey
      = some ⟨bs, "image/png", now⟩ := by
  unfold generateDiagram
  simp only [hs, hr, hsa, if_true, if_false]
  refine ⟨by simp [hs], by simp [hs, writeCount], by simp [hs, readCount],
    ?_, by simp [hs, storeGet_storePut]⟩
  intro k a hk
  have hne : env.freshKey ≠ k := fun h => by rw [h, hk] at hfresh; cases hfresh
  simp [hs, storeGet_storePut, hne, hk]

/-- Witness for the amended C8 at a concrete successful call. -/
theorem generateDiagram_frame_effect_witness :
    (generateDiagram ⟨some [7], true, "new"⟩ [("old", ⟨[1], "image/png", 0⟩)]
        "d" ["EC2"] 5).2.2 = [.put "new"] ∧
    writeCount (generateDiagram ⟨some [7], true, "new"⟩
        [("old", ⟨[1], "image/png", 0⟩)] "d" ["EC2"] 5).2.2 = 1 ∧
    readCount (generateDiagram ⟨some [7], true, "new"⟩
        [("old", ⟨[1], "image/png", 0⟩)] "d" ["EC2"] 5).2.2 = 0 ∧
    (∀ k a, storeGet [("old", ⟨[1], "image/png", 0⟩)] k = some a →
      storeGet (generateDiagram ⟨some [7], true, "new"⟩
          [("old", ⟨[1], "image/png", 0⟩)] "d" ["EC2"] 5).2.1 k = some a) ∧
    storeGet (generateDiagram ⟨some [7], true, "new"⟩
        [("old", ⟨[1], "image/png", 0⟩)] "d" ["EC2"] 5).2.1 "new"
      = some ⟨[7], "image/png", 5⟩ :=
  generateDiagram_frame_effect ⟨some [7], true, "new"⟩
    [("old", ⟨[1], "image/png", 0⟩)] "d" ["EC2"] 5 [7]
    (by decide) rfl rfl rfl

/-! ## Claim C10 -/

/-- C10: in `FileUploadComponent`, a chosen file whose size strictly exceeds
`maxFileSizeMB` megabytes (default 10) is rejected — the error message is
set, the selected file is unchanged and `onFileSelect` is not invoked —
while a file within the limit is selected, `onFileSelect` is invoked with
exactly that file, and the error message is cleared. -/
theorem handleFileChange_size_limit (maxMB : Nat) (st : FileUploadState)
    (file : UIFile) (rest : List UIFile) :
    (file.size > maxMB * 1024 * 1024 →
      (handleFileChange maxMB st (file :: rest)).1.selectedFile
          = st.selectedFile ∧
      (handleFileChange maxMB st (file :: rest)).1.error
          = "File size must be less than " ++ toString maxMB ++ "MB" ∧
      (handleFileChange maxMB st (file :: rest)).1.error ≠ "" ∧
      (handleFileChange maxMB st (file :: rest)).2 = []) ∧
    (file.size ≤ maxMB * 1024 * 1024 →
      (handleFileChange maxMB st (file :: rest)).2 = [file] ∧
      (handleFileChange maxMB st (file :: rest)).1.selectedFile
          = some file ∧
      (handleFileChange maxMB st (file :: rest)).1.error = "") ∧
    defaultMaxFileSizeMB = 10 := by
  refine ⟨fun hgt => ?_, fun hle => ?_, rfl⟩
  · have hres : handleFileChange maxMB st (file :: rest)
        = ({ st with error := "File size must be less than "
              ++ toString maxMB ++ "MB" }, []) := by
      unfold handleFileChange
      simp [hgt]
    rw [hres]
    refine ⟨rfl, rfl, ?_, rfl⟩
    intro h
    have hlen := congrArg String.length h
    simp [String.length_append] at hlen
    exact absurd hlen.2 (by decide)
  · have hngt : ¬ file.size > maxMB * 1024 * 1024 := not_lt.mpr hle
    have hres : handleFileChange maxMB st (file :: rest)
        = ({ st with selectedFile := some file, error := "" }, [file]) := by
      unfold handleFileChange
      simp [hngt]
    rw [hres]
    exact ⟨rfl, rfl, rfl⟩

/-- Witness for C10 at a concrete oversize file and a concrete accepted
file. -/
theorem handleFileChange_size_limit_witness :
    ((handleFileChange 10 ⟨none, "old error"⟩
        [⟨"big.pdf", 11 * 1024 * 1024⟩]).1.selectedFile = none ∧
      (handleFileChange 10 ⟨none, "old error"⟩
        [⟨"big.pdf", 11 * 1024 * 1024⟩]).1.error
          = "File size must be less than " ++ toString 10 ++ "MB" ∧
      (handleFileChange 10 ⟨none, "old error"⟩
        [⟨"big.pdf", 11 * 1024 * 1024⟩]).1.error ≠ "" ∧
      (handleFileChange 10 ⟨none, "old error"⟩
        [⟨"big.pdf", 11 * 1024 * 1024⟩]).2 = []) ∧
    ((handleFileChange 10 ⟨none, "old error"⟩
        [⟨"ok.pdf", 5 * 1024 * 1024⟩]).2 = [⟨"ok.pdf", 5 * 1024 * 1024⟩] ∧
      (handleFileChange 10 ⟨none, "old error"⟩
        [⟨"ok.pdf", 5 * 1024 * 1024⟩]).1.selectedFile
          = some ⟨"ok.pdf", 5 * 1024 * 1024⟩ ∧
      (handleFileChange 10 ⟨none, "old error"⟩
        [⟨"ok.pdf", 5 * 1024 * 1024⟩]).1.error = "") :=
  ⟨(handleFileChange_size_limit 10 ⟨none, "old error"⟩
      ⟨"big.pdf", 11 * 1024 * 1024⟩ []).1 (by norm_num),
    (handleFileChange_size_limit 10 ⟨none, "old error"⟩
      ⟨"ok.pdf", 5 * 1024 * 1024⟩ []).2.1 (by norm_num)⟩

/-! ## Path lemmas for the filesystem model -/

/-- A path is a prefix of itself extended. -/
theorem pre_of_append (p t : FsPath) : p <+: p ++ t := ⟨t, rfl⟩

/-- Prefix is reflexive. -/
theorem pre_rfl (p : FsPath) : p <+: p := ⟨[], by simp⟩

/-- Prefix is transitive. -/
theorem pre_trans {p q r : FsPath} (h1 : p <+: q) (h2 : q <+: r) :
    p <+: r := by
  rcases h1 with ⟨t1, rfl⟩
  rcases h2 with ⟨t2, rfl⟩
  exact ⟨t1 ++ t2, by simp⟩

/-- Prefixes are no longer than the whole. -/
theorem pre_length_le {p q : FsPath} (h : p <+: q) :
    p.length ≤ q.length := by
  rcases h with ⟨t, rfl⟩
  simp

/-- Two prefixes of the same path are comparable. -/
theorem pre_total {p q r : FsPath} (hp : p <+: r) (hq : q <+: r) :
    p <+: q ∨ q <+: p := by
  rcases hp with ⟨t1, h1⟩
  rcases hq with ⟨t2, h2⟩
  rw [← h2] at h1
  rcases List.append_eq_append_iff.mp h1 with ⟨a, ha, _⟩ | ⟨c, hc, _⟩
  · exact Or.inl ⟨a, ha.symm⟩
  · exact Or.inr ⟨c, hc.symm⟩

/-- A prefix at least as long as the whole is the whole. -/
theorem pre_eq_of_length {p q : FsPath} (h : p <+: q)
    (hl : q.length ≤ p.length) : p = q := by
  rcases h with ⟨t, rfl⟩
  have ht : t = [] := by simpa using hl
  simp [ht]

/-- A strictly longer path is not a prefix. -/
theorem not_snoc_pre_self {p : FsPath} {x : String} : ¬ p ++ [x] <+: p := by
  intro h
  have := pre_length_le h
  simp at this

/-- Two one-segment extensions of the same path that are prefixes of a
common path agree on the extra segment. -/
theorem pre_snoc_inj {p : FsPath} {x y : String} {q : FsPath}
    (hx : p ++ [x] <+: q) (hy : p ++ [y] <+: q) : x = y := by
  rcases pre_total hx hy with h | h
  · have heq := pre_eq_of_length h (by simp)
    have := List.append_inj_right heq rfl
    simpa using this
  · have heq := pre_eq_of_length h (by simp)
    have := List.append_inj_right heq rfl
    simpa using this.symm

/-- Incomparable paths have no common extension. -/
theorem no_common_ext {p q r : FsPath} (h1 : ¬ p <+: q) (h2 : ¬ q <+: p)
    (hp : p <+: r) (hq : q <+: r) : False := by
  rcases pre_total hp hq with h | h
  exacts [h1 h, h2 h]

/-- The containing directory of a one-segment extension. -/
theorem parentDir_snoc (p : FsPath) (x : String) :
    parentDir (p ++ [x]) = p := by
  simp [parentDir, List.dropLast_concat]

/-- A one-segment extension is never the root. -/
theorem snoc_ne_nil (p : FsPath) (x : String) : p ++ [x] ≠ [] := by
  simp

/-! ## Entry-map lemmas for the filesystem model -/

/-- A successful lookup comes from an entry of the list. -/
theorem getEntry_some_mem {l : List (FsPath × FsNode)} {p : FsPath}
    {n : FsNode} (h : getEntry l p = some n) : (p, n) ∈ l := by
  induction l with
  | nil => cases h
  | cons e rest ih =>
    rcases e with ⟨q, m⟩
    simp only [getEntry] at h
    split at h
    · cases h
      simp_all
    · simp [ih h]

/-- A lookup fails exactly when no entry has the path. -/
theorem getEntry_none_iff {l : List (FsPath × FsNode)} {p : FsPath} :
    getEntry l p = none ↔ ∀ e ∈ l, e.1 ≠ p := by
  induction l with
  | nil => simp [getEntry]
  | cons e rest ih =>
    rcases e with ⟨q, m⟩
    constructor
    · intro h
      simp only [getEntry] at h
      by_cases hqp : q = p
      · rw [if_pos hqp] at h
        cases h
      · rw [if_neg hqp] at h
        intro e he
        rcases List.mem_cons.mp he with rfl | he2
        · exact hqp
        · exact ih.mp h e he2
    · intro h
      simp only [getEntry]
      have hqp : q ≠ p := h (q, m) (List.mem_cons_self _ _)
      rw [if_neg hqp]
      exact ih.mpr (fun e he => h e (List.mem_cons_of_mem _ he))

/-- With distinct keys, membership determines the lookup. -/
theorem getEntry_of_mem_nodup {l : List (FsPath × FsNode)} {p : FsPath}
    {n : FsNode} (hnd : (l.map Prod.fst).Nodup) (hm : (p, n) ∈ l) :
    getEntry l p = some n := by
  induction l with
  | nil => cases hm
  | cons e rest ih =>
    rcases e with ⟨q, m⟩
    simp only [List.map_cons, List.nodup_cons] at hnd
    rcases List.mem_cons.mp hm with h | h
    · cases h
      simp [getEntry]
    · have hqp : q ≠ p := by
        intro hq
        exact hnd.1 (hq ▸ List.mem_map_of_mem Prod.fst h)
      simp [getEntry, hqp, ih hnd.2 h]

/-- A key is present exactly when lookup succeeds. -/
theorem mem_keys_iff_getEntry {l : List (FsPath × FsNode)} {p : FsPath} :
    p ∈ l.map Prod.fst ↔ getEntry l p ≠ none := by
  constructor
  · intro h hn
    rcases List.mem_map.mp h with ⟨e, he, hep⟩
    exact (getEntry_none_iff.mp hn e he) hep
  · intro h
    cases hg : getEntry l p with
    | none => exact absurd hg h
    | some n => exact List.mem_map_of_mem Prod.fst (getEntry_some_mem hg)

/-- Lookup after dropping a key. -/
theorem getEntry_removeKey (l : List (FsPath × FsNode)) (p q : FsPath) :
    getEntry (removeKey l p) q = if q = p then none else getEntry l q := by
  induction l with
  | nil => simp [removeKey, getEntry]
  | cons e rest ih =>
    rcases e with ⟨r, m⟩
    by_cases hrp : r = p
    · subst hrp
      have hhead : removeKey ((r, m) :: rest) r = removeKey rest r := by
        simp [removeKey]
      rw [hhead, ih]
      by_cases hqp : q = r
      · simp [hqp]
      · have hpq : r ≠ q := fun h => hqp h.symm
        simp [hqp, hpq, getEntry]
    · have hhead : removeKey ((r, m) :: rest) p = (r, m) :: removeKey rest p := by
        simp [removeKey, hrp]
      rw [hhead]
      by_cases hrq : r = q
      · subst hrq
        simp [getEntry, hrp]
      · simp [getEntry, hrq, ih]

/-! ## getNode and setNode lemmas -/

/-- Reading after a write at a non-root path. -/
theorem getNode_setNode {fs : FS} {p : FsPath} (n : FsNode) (hp : p ≠ [])
    (q : FsPath) :
    getNode (setNode fs p n) q = if q = p then some n else getNode fs q := by
  by_cases hqp : q = p
  · subst hqp
    rw [if_pos rfl]
    unfold getNode setNode
    rw [if_neg hp]
    simp [getEntry]
  · rw [if_neg hqp]
    unfold getNode setNode
    by_cases hq : q = []
    · subst hq
      rw [if_pos rfl, if_pos rfl]
    · rw [if_neg hq, if_neg hq]
      simp only [getEntry]
      rw [getEntry_removeKey]
      have hpq : p ≠ q := fun h => hqp h.symm
      simp [hqp, hpq]

/-- A non-root path with a node has an entry. -/
theorem getNode_some_mem {fs : FS} {p : FsPath} {n : FsNode} (hp : p ≠ [])
    (h : getNode fs p = some n) : (p, n) ∈ fs.entries := by
  unfold getNode at h
  rw [if_neg hp] at h
  exact getEntry_some_mem h

/-- A non-root path absent from the entries has no node. -/
theorem getNode_none_of_not_mem {fs : FS} {p : FsPath} (hp : p ≠ [])
    (h : ∀ e ∈ fs.entries, e.1 ≠ p) : getNode fs p = none := by
  unfold getNode
  rw [if_neg hp]
  exact getEntry_none_iff.mpr h

/-- The root always reads as a directory. -/
theorem getNode_nil (fs : FS) : getNode fs [] = some FsNode.dir := rfl

/-- Writing a fresh path below an existing directory preserves
well-formedness. -/
theorem wfFS_setNode {fs : FS} {p : FsPath} (n : FsNode) (hwf : wfFS fs)
    (hp : p ≠ []) (habs : getNode fs p = none)
    (hpar : getNode fs (parentDir p) = some FsNode.dir) :
    wfFS (setNode fs p n) := by
  have hparp : parentDir p ≠ p := by
    intro h
    have := congrArg List.length h
    rw [parentDir] at this
    rw [List.length_dropLast] at this
    rcases List.eq_nil_or_concat p with rfl | ⟨l, b, rfl⟩
    · exact hp rfl
    · simp at this
  constructor
  · intro e he
    rcases List.mem_cons.mp he with rfl | he2
    · refine ⟨hp, ?_⟩
      rw [getNode_setNode n hp, if_neg hparp]
      exact hpar
    · have hel : e ∈ fs.entries := by
        have := List.mem_filter.mp he2
        exact this.1
      have he1 := (hwf.1 e hel).1
      have he2d := (hwf.1 e hel).2
      refine ⟨he1, ?_⟩
      rw [getNode_setNode n hp]
      by_cases hep : parentDir e.1 = p
      · rw [hep] at he2d
        rw [habs] at he2d
        cases he2d
      · rw [if_neg hep]
        exact he2d
  · have hnd : ((removeKey fs.entries p).map Prod.fst).Nodup :=
      ((List.filter_sublist fs.entries).map Prod.fst).nodup hwf.2
    refine List.nodup_cons.mpr ⟨?_, hnd⟩
    intro hmem
    rcases List.mem_map.mp hmem with ⟨e, he, hep⟩
    have := List.mem_filter.mp he
    rw [hep] at this
    simp at this

/-- Every strict ancestor of a stored path is a directory. -/
theorem ancestor_dir {fs : FS} (hwf : wfFS fs) :
    ∀ r q nd, getNode fs (q ++ r) = some nd → r ≠ [] →
      getNode fs q = some FsNode.dir := by
  intro r
  induction r using List.reverseRecOn with
  | nil => intro q nd _ hr; exact absurd rfl hr
  | append_singleton r' x ih =>
    intro q nd h _
    have hne : q ++ (r' ++ [x]) ≠ [] := by simp
    have hmem := getNode_some_mem hne h
    have hpar := (hwf.1 _ hmem).2
    have hpp : parentDir (q ++ (r' ++ [x])) = q ++ r' := by
      rw [← List.append_assoc]
      exact parentDir_snoc (q ++ r') x
    rw [hpp] at hpar
    rcases List.eq_nil_or_concat r' with rfl | ⟨l2, b, rfl⟩
    · simpa using hpar
    · exact ih q FsNode.dir hpar (by simp)

/-! ## Directory-listing lemmas -/

/-- `stripChild p q` returns exactly the final segment of a one-segment
extension of `p`. -/
theorem stripChild_some {p : FsPath} :
    ∀ {q : FsPath} {n : String}, stripChild p q = some n ↔ q = p ++ [n] := by
  induction p with
  | nil =>
    intro q n
    match q with
    | [] => simp [stripChild]
    | [b] => simp [stripChild]
    | b :: c :: r => simp [stripChild]
  | cons a p2 ih =>
    intro q n
    match q with
    | [] => simp [stripChild]
    | b :: q2 =>
      by_cases hab : a = b
      · subst hab
        simp [stripChild, ih]
      · have hba : b ≠ a := fun h => hab h.symm
        simp [stripChild, hab, hba]

/-- Names listed by `readdirSync` with distinct keys are distinct. -/
theorem children_nodup {l : List (FsPath × FsNode)} {p : FsPath}
    (h : (l.map Prod.fst).Nodup) :
    (l.filterMap (fun e => stripChild p e.1)).Nodup := by
  induction l with
  | nil => simp
  | cons e rest ih =>
    rcases e with ⟨q, m⟩
    simp only [List.map_cons, List.nodup_cons] at h
    cases hs : stripChild p q with
    | none => simpa [List.filterMap_cons, hs] using ih h.2
    | some f =>
      rw [List.filterMap_cons, hs]
      refine List.nodup_cons.mpr ⟨?_, ih h.2⟩
      intro hmem
      rcases List.mem_filterMap.mp hmem with ⟨e2, he2, hse⟩
      have h1 : q = p ++ [f] := stripChild_some.mp hs
      have h2 : e2.1 = p ++ [f] := stripChild_some.mp hse
      have hm2 : e2.1 ∈ rest.map Prod.fst := List.mem_map_of_mem Prod.fst he2
      rw [h2, ← h1] at hm2
      exact h.1 hm2

/-- Membership in a directory listing corresponds to an entry at the
one-segment extension. -/
theorem mem_children_iff {l : List (FsPath × FsNode)} {p : FsPath}
    {f : String} :
    f ∈ l.filterMap (fun e => stripChild p e.1)
      ↔ ∃ nd, (p ++ [f], nd) ∈ l := by
  rw [List.mem_filterMap]
  constructor
  · rintro ⟨⟨q, nd⟩, hm, hs⟩
    have : q = p ++ [f] := stripChild_some.mp hs
    exact ⟨nd, this ▸ hm⟩
  · rintro ⟨nd, hm⟩
    exact ⟨(p ++ [f], nd), hm, stripChild_some.mpr rfl⟩

/-! ## Counting lemmas for the termination measure -/

/-- A stronger filter keeps at most as many elements. -/
theorem filter_length_mono {α : Type} (P Q : α → Bool) (l : List α)
    (h : ∀ a ∈ l, P a = true → Q a = true) :
    (l.filter P).length ≤ (l.filter Q).length := by
  induction l with
  | nil => simp
  | cons x xs ih =>
    have hx := h x (List.mem_cons_self _ _)
    have ihx := ih (fun a ha => h a (List.mem_cons_of_mem _ ha))
    rw [List.filter_cons, List.filter_cons]
    cases hP : P x with
    | true => simp [hP, hx hP, Nat.succ_le_succ ihx]
    | false =>
      cases hQ : Q x with
      | true => simp; omega
      | false => simpa using ihx

/-- A stronger filter that misses a kept element keeps strictly fewer. -/
theorem filter_length_lt {α : Type} (P Q : α → Bool) (l : List α) (a : α)
    (ha : a ∈ l) (hQ : Q a = true) (hP : P a = false)
    (h : ∀ x ∈ l, P x = true → Q x = true) :
    (l.filter P).length < (l.filter Q).length := by
  induction l with
  | nil => cases ha
  | cons x xs ih =>
    rw [List.filter_cons, List.filter_cons]
    rcases List.mem_cons.mp ha with rfl | ha2
    · rw [hP, hQ]
      have := filter_length_mono P Q xs
        (fun y hy => h y (List.mem_cons_of_mem _ hy))
      simp
      omega
    · have hx := h x (List.mem_cons_self _ _)
      have ihx := ih ha2 (fun y hy => h y (List.mem_cons_of_mem _ hy))
      cases hPx : P x with
      | true => simp [hPx, hx hPx]; omega
      | false =>
        cases hQx : Q x with
        | true => simp; omega
        | false => simpa using ihx

/-- Entries below a child are strictly fewer than entries below the parent,
provided the parent itself is stored. -/
theorem subtreeCount_child_lt {fs : FS} {s : FsPath} {f : String}
    {nd : FsNode} (hs : s ≠ []) (hn : getNode fs s = some nd) :
    subtreeCount fs (s ++ [f]) < subtreeCount fs s := by
  unfold subtreeCount
  refine filter_length_lt _ _ _ (s, nd) (getNode_some_mem hs hn) ?_ ?_ ?_
  · simp [pre_rfl]
  · simp [not_snoc_pre_self]
  · intro e _ hp
    simp only [decide_eq_true_eq] at hp ⊢
    exact pre_trans (pre_of_append s [f]) hp

/-- Two well-keyed filesystems that agree below a non-root path have the
same number of entries there. -/
theorem subtreeCount_congr {fs2 fs : FS} {s : FsPath}
    (h2 : (fs2.entries.map Prod.fst).Nodup)
    (h1 : (fs.entries.map Prod.fst).Nodup) (hs : s ≠ [])
    (h : ∀ p, s <+: p → getNode fs2 p = getNode fs p) :
    subtreeCount fs2 s = subtreeCount fs s := by
  have key : ∀ fsx : FS,
      subtreeCount fsx s
        = ((fsx.entries.map Prod.fst).filter
            (fun q => decide (s <+: q))).length := by
    intro fsx
    unfold subtreeCount
    rw [List.filter_map, List.length_map]
    rfl
  rw [key fs2, key fs]
  have hnd2 : ((fs2.entries.map Prod.fst).filter
      (fun q => decide (s <+: q))).Nodup :=
    (List.filter_sublist _).nodup h2
  have hnd1 : ((fs.entries.map Prod.fst).filter
      (fun q => decide (s <+: q))).Nodup :=
    (List.filter_sublist _).nodup h1
  refine List.Perm.length_eq ?_
  refine (List.perm_ext_iff_of_nodup hnd2 hnd1).mpr ?_
  intro q
  have hmem : ∀ fsx : FS,
      (q ∈ (fsx.entries.map Prod.fst).filter (fun q => decide (s <+: q)))
        ↔ (s <+: q ∧ getEntry fsx.entries q ≠ none) := by
    intro fsx
    rw [List.mem_filter]
    rw [mem_keys_iff_getEntry]
    simp [and_comm]
  rw [hmem fs2, hmem fs]
  constructor
  · rintro ⟨hpre, hne⟩
    refine ⟨hpre, ?_⟩
    have hq : q ≠ [] := by
      intro hq
      subst hq
      have := pre_length_le hpre
      simp at this
      exact hs this
    have hg := h q hpre
    unfold getNode at hg
    rw [if_neg hq, if_neg hq] at hg
    rw [← hg]
    exact hne
  · rintro ⟨hpre, hne⟩
    refine ⟨hpre, ?_⟩
    have hq : q ≠ [] := by
      intro hq
      subst hq
      have := pre_length_le hpre
      simp at this
      exact hs this
    have hg := h q hpre
    unfold getNode at hg
    rw [if_neg hq, if_neg hq] at hg
    rw [hg]
    exact hne

/-! ## Inversion lemmas for the copy operations -/

/-- What a successful `mkdirSync` means. -/
theorem mkdirSync_ok {fs : FS} {p : FsPath} {fs2 : FS}
    (h : mkdirSync fs p = .ok fs2) :
    p ≠ [] ∧ getNode fs p = none ∧
      getNode fs (parentDir p) = some FsNode.dir ∧
      fs2 = setNode fs p FsNode.dir := by
  unfold mkdirSync at h
  by_cases hp : p = []
  · rw [if_pos hp] at h
    cases h
  · rw [if_neg hp] at h
    by_cases hex : (getNode fs p).isSome
    · rw [if_pos hex] at h
      cases h
    · rw [if_neg hex] at h
      by_cases hpar : getNode fs (parentDir p) = some FsNode.dir
      · rw [if_pos hpar] at h
        injection h with h
        exact ⟨hp, Option.not_isSome_iff_eq_none.mp hex, hpar, h.symm⟩
      · rw [if_neg hpar] at h
        cases h

/-- What a successful `copyFileSync` means. -/
theorem copyFileSync_ok {fs : FS} {src tgt : FsPath} {fs2 : FS}
    (h : copyFileSync fs src tgt = .ok fs2) :
    ∃ c, getNode fs src = some (.file c) ∧ tgt ≠ [] ∧
      getNode fs tgt ≠ some FsNode.dir ∧
      getNode fs (parentDir tgt) = some FsNode.dir ∧
      fs2 = setNode fs tgt (.file c) := by
  unfold copyFileSync at h
  split at h
  case h_1 c heq =>
    by_cases ht : tgt = []
    · rw [if_pos ht] at h
      cases h
    · rw [if_neg ht] at h
      by_cases htd : getNode fs tgt = some FsNode.dir
      · rw [if_pos htd] at h
        cases h
      · rw [if_neg htd] at h
        by_cases hpar : getNode fs (parentDir tgt) = some FsNode.dir
        · rw [if_pos hpar] at h
          injection h with h
          exact ⟨c, heq, ht, htd, hpar, h.symm⟩
        · rw [if_neg hpar] at h
          cases h
  case h_2 => cases h

/-- What a successful `readdirSync` means. -/
theorem readdirSync_ok {fs : FS} {p : FsPath} {l : List String}
    (h : readdirSync fs p = .ok l) :
    getNode fs p = some FsNode.dir ∧
      l = fs.entries.filterMap (fun e => stripChild p e.1) := by
  unfold readdirSync at h
  by_cases hd : getNode fs p = some FsNode.dir
  · rw [if_pos hd] at h
    injection h with h
    exact ⟨hd, h.symm⟩
  · rw [if_neg hd] at h
    cases h

/-- What the create-target step of `copyDirRecursive` means. -/
theorem copyStep1_ok {fs : FS} {t : FsPath} {fs1 : FS}
    (h : (if existsSync fs t then Except.ok fs else mkdirSync fs t)
          = .ok fs1) :
    (fs1 = fs ∧ (getNode fs t).isSome) ∨
    (t ≠ [] ∧ getNode fs t = none ∧
      getNode fs (parentDir t) = some FsNode.dir ∧
      fs1 = setNode fs t FsNode.dir) := by
  by_cases hex : existsSync fs t
  · rw [if_pos hex] at h
    injection h with h
    exact Or.inl ⟨h.symm, hex⟩
  · rw [if_neg hex] at h
    exact Or.inr (mkdirSync_ok h)

/-- Decomposition of a successful `copyDirRecursive` call. -/
theorem copyDirRecursive_ok_inv {fuel : Nat} {fs : FS} {s t : FsPath}
    {fsOut : FS} (h : copyDirRecursive (fuel + 1) fs s t = .ok fsOut) :
    ∃ fs1 files,
      (if existsSync fs t then Except.ok fs else mkdirSync fs t) = .ok fs1 ∧
      readdirSync fs1 s = .ok files ∧
      copyDirEntries fuel fs1 s t files = .ok fsOut := by
  rw [copyDirRecursive] at h
  split at h
  case h_1 => cases h
  case h_2 fs1 heq =>
    split at h
    case h_1 => cases h
    case h_2 files heq2 => exact ⟨fs1, files, heq, heq2, h⟩

/-! ## Frame lemmas: the copy writes only below the target -/

/-- Frame property of the entry loop, given the frame property of the
directory copy at the same fuel. -/
theorem copyDirEntries_frame_of (fuel : Nat)
    (hdir : ∀ (fs : FS) (s t : FsPath) (fsOut : FS),
      copyDirRecursive fuel fs s t = .ok fsOut →
      ∀ p, ¬ t <+: p → getNode fsOut p = getNode fs p) :
    ∀ (l : List String) (fs : FS) (s t : FsPath) (fsOut : FS),
      copyDirEntries fuel fs s t l = .ok fsOut →
      ∀ p, (∀ f ∈ l, ¬ joinPath t f <+: p) →
        getNode fsOut p = getNode fs p := by
  intro l
  induction l with
  | nil =>
    intro fs s t fsOut h p hp
    rw [copyDirEntries] at h
    injection h with h
    rw [h]
  | cons f rest ih =>
    intro fs s t fsOut h p hp
    rw [copyDirEntries] at h
    split at h
    case h_1 => cases h
    case h_2 =>
      split at h
      case h_1 => cases h
      case h_2 fs2 heq =>
        have h1 := hdir _ _ _ _ heq p (hp f (List.mem_cons_self _ _))
        have h2 := ih _ _ _ _ h p
          (fun g hg => hp g (List.mem_cons_of_mem _ hg))
        rw [h2, h1]
    case h_3 =>
      split at h
      case h_1 => cases h
      case h_2 fs2 heq =>
        obtain ⟨c, _, htne, _, _, hfs2⟩ := copyFileSync_ok heq
        have h1 : getNode fs2 p = getNode fs p := by
          rw [hfs2, getNode_setNode _ htne]
          rw [if_neg (fun hpt : p = joinPath t f =>
            hp f (List.mem_cons_self _ _) (hpt ▸ pre_rfl (joinPath t f)))]
        have h2 := ih _ _ _ _ h p
          (fun g hg => hp g (List.mem_cons_of_mem _ hg))
        rw [h2, h1]

/-- Frame property of `copyDirRecursive`: on success, every path that is not
at or below the target is unchanged. -/
theorem copyDirRecursive_frame :
    ∀ (fuel : Nat) (fs : FS) (s t : FsPath) (fsOut : FS),
      copyDirRecursive fuel fs s t = .ok fsOut →
      ∀ p, ¬ t <+: p → getNode fsOut p = getNode fs p := by
  intro fuel
  induction fuel with
  | zero =>
    intro fs s t fsOut h
    rw [copyDirRecursive] at h
    cases h
  | succ m ih =>
    intro fs s t fsOut h p hp
    obtain ⟨fs1, files, h1, h2, h3⟩ := copyDirRecursive_ok_inv h
    have hstep : getNode fs1 p = getNode fs p := by
      rcases copyStep1_ok h1 with ⟨rfl, _⟩ | ⟨htne, _, _, hfs1⟩
      · rfl
      · rw [hfs1, getNode_setNode _ htne,
          if_neg (fun hpt : p = t => hp (hpt ▸ pre_rfl t))]
    have hent := copyDirEntries_frame_of m ih files fs1 s t fsOut h3 p
      (fun g _ hg => hp (pre_trans (pre_of_append t [g]) hg))
    rw [hent, hstep]

/-! ## Monotonicity in fuel -/

/-- Fuel monotonicity of the entry loop, given it for the directory copy at
the same fuel. -/
theorem copyDirEntries_mono_of (fuel : Nat)
    (hdir : ∀ (fs : FS) (s t : FsPath) (fsOut : FS),
      copyDirRecursive fuel fs s t = .ok fsOut →
      copyDirRecursive (fuel + 1) fs s t = .ok fsOut) :
    ∀ (l : List String) (fs : FS) (s t : FsPath) (fsOut : FS),
      copyDirEntries fuel fs s t l = .ok fsOut →
      copyDirEntries (fuel + 1) fs s t l = .ok fsOut := by
  intro l
  induction l with
  | nil =>
    intro fs s t fsOut h
    rw [copyDirEntries] at h
    rw [copyDirEntries]
    exact h
  | cons f rest ih =>
    intro fs s t fsOut h
    rw [copyDirEntries] at h
    rw [copyDirEntries]
    split at h
    case h_1 heqg => cases h
    case h_2 heqg =>
      split at h
      case h_1 => cases h
      case h_2 fs2 heq =>
        rw [hdir _ _ _ _ heq]
        exact ih _ _ _ _ h
    case h_3 c heqg =>
      split at h
      case h_1 => cases h
      case h_2 fs2 heq => exact ih _ _ _ _ h

/-- Fuel monotonicity of `copyDirRecursive` by one step. -/
theorem copyDirRecursive_mono_succ :
    ∀ (fuel : Nat) (fs : FS) (s t : FsPath) (fsOut : FS),
      copyDirRecursive fuel fs s t = .ok fsOut →
      copyDirRecursive (fuel + 1) fs s t = .ok fsOut := by
  intro fuel
  induction fuel with
  | zero =>
    intro fs s t fsOut h
    rw [copyDirRecursive] at h
    cases h
  | succ m ih =>
    intro fs s t fsOut h
    obtain ⟨fs1, files, h1, h2, h3⟩ := copyDirRecursive_ok_inv h
    rw [copyDirRecursive]
    simp only [h1, h2]
    exact copyDirEntries_mono_of m ih files fs1 s t fsOut h3

/-- Fuel monotonicity of `copyDirRecursive`. -/
theorem copyDirRecursive_mono_le {f1 f2 : Nat} (hle : f1 ≤ f2) {fs : FS}
    {s t : FsPath} {fsOut : FS}
    (h : copyDirRecursive f1 fs s t = .ok fsOut) :
    copyDirRecursive f2 fs s t = .ok fsOut := by
  induction f2 with
  | zero =>
    have : f1 = 0 := Nat.le_zero.mp hle
    subst this
    exact h
  | succ m ih =>
    rcases Nat.lt_or_ge f1 (m + 1) with hlt | hge
    · exact copyDirRecursive_mono_succ m fs s t fsOut
        (ih (Nat.lt_succ_iff.mp hlt))
    · have : f1 = m + 1 := Nat.le_antisymm hle hge
      subst this
      exact h

/-- Fuel monotonicity of the entry loop. -/
theorem copyDirEntries_mono_le {f1 f2 : Nat} (hle : f1 ≤ f2)
    {l : List String} {fs : FS} {s t : FsPath} {fsOut : FS}
    (h : copyDirEntries f1 fs s t l = .ok fsOut) :
    copyDirEntries f2 fs s t l = .ok fsOut := by
  induction f2 with
  | zero =>
    have : f1 = 0 := Nat.le_zero.mp hle
    subst this
    exact h
  | succ m ih =>
    rcases Nat.lt_or_ge f1 (m + 1) with hlt | hge
    · exact copyDirEntries_mono_of m (fun fs2 s2 t2 o2 =>
        copyDirRecursive_mono_succ m fs2 s2 t2 o2) l fs s t fsOut
        (ih (Nat.lt_succ_iff.mp hlt))
    · have : f1 = m + 1 := Nat.le_antisymm hle hge
      subst this
      exact h

/-! ## Main correctness of the directory copy -/

/-- `joinPath` is append of one segment. -/
theorem joinPath_eq (p : FsPath) (s : String) : joinPath p s = p ++ [s] := rfl

/-- Correctness of `copyDirRecursive` on disjoint source and target, by
strong induction on the number of entries below the source: some fuel makes
the call succeed, well-formedness is preserved, nothing outside the target
subtree changes, the target directory exists afterwards, and every node
below the source is mirrored below the target. -/
theorem copyDirAux :
    ∀ (N : Nat) (fs : FS) (src tgt : FsPath),
      subtreeCount fs src ≤ N →
      wfFS fs →
      getNode fs src = some FsNode.dir →
      ¬ src <+: tgt → ¬ tgt <+: src →
      getNode fs (parentDir tgt) = some FsNode.dir →
      (∀ p, tgt <+: p → getNode fs p = none) →
      ∃ fuel fsOut,
        copyDirRecursive fuel fs src tgt = .ok fsOut ∧
        wfFS fsOut ∧
        (∀ p, ¬ tgt <+: p → getNode fsOut p = getNode fs p) ∧
        getNode fsOut tgt = some FsNode.dir ∧
        (∀ rel node, getNode fs (src ++ rel) = some node →
          getNode fsOut (tgt ++ rel) = some node) := by
  intro N
  induction N using Nat.strong_induction_on with
  | _ N IH =>
  intro fs src tgt hcount hwf hsrc hd1 hd2 hpar hempty
  have hsrcne : src ≠ [] := by
    intro h
    subst h
    exact hd1 ⟨tgt, rfl⟩
  have htne : tgt ≠ [] := by
    intro h
    subst h
    exact hd2 ⟨src, rfl⟩
  have htno : getNode fs tgt = none := hempty tgt (pre_rfl tgt)
  have hex : existsSync fs tgt = false := by
    simp [existsSync, htno]
  have hmk : mkdirSync fs tgt = .ok (setNode fs tgt FsNode.dir) := by
    unfold mkdirSync
    rw [if_neg htne]
    rw [if_neg (by simp [htno] : ¬ (getNode fs tgt).isSome = true)]
    rw [if_pos hpar]
  have hstep1 : (if existsSync fs tgt then Except.ok fs
        else mkdirSync fs tgt) = .ok (setNode fs tgt FsNode.dir) := by
    rw [hex]
    simpa using hmk
  have hget1 : ∀ q, getNode (setNode fs tgt FsNode.dir) q
      = if q = tgt then some FsNode.dir else getNode fs q :=
    fun q => getNode_setNode FsNode.dir htne q
  have hwf1 : wfFS (setNode fs tgt FsNode.dir) :=
    wfFS_setNode _ hwf htne htno hpar
  have h1src : ∀ p, src <+: p →
      getNode (setNode fs tgt FsNode.dir) p = getNode fs p := by
    intro p hp
    rw [hget1, if_neg (fun hpt : p = tgt => hd1 (hpt ▸ hp))]
  have hsrc1 : getNode (setNode fs tgt FsNode.dir) src = some FsNode.dir := by
    rw [h1src src (pre_rfl src)]
    exact hsrc
  have hreaddir : readdirSync (setNode fs tgt FsNode.dir) src
      = .ok ((setNode fs tgt FsNode.dir).entries.filterMap
          (fun e => stripChild src e.1)) := by
    unfold readdirSync
    rw [if_pos hsrc1]
  have h1tgt : getNode (setNode fs tgt FsNode.dir) tgt = some FsNode.dir := by
    rw [hget1, if_pos rfl]
  have h1empty : ∀ f, ∀ p, joinPath tgt f <+: p →
      getNode (setNode fs tgt FsNode.dir) p = none := by
    intro f p hp
    simp only [joinPath_eq] at hp
    have hpt : p ≠ tgt := by
      intro h
      subst h
      exact not_snoc_pre_self hp
    rw [hget1, if_neg hpt]
    exact hempty p (pre_trans (pre_of_append tgt [f]) hp)
  have h1mem : ∀ f, f ∈ (setNode fs tgt FsNode.dir).entries.filterMap
        (fun e => stripChild src e.1) →
      ∃ nd, getNode fs (joinPath src f) = some nd := by
    intro f hf
    obtain ⟨nd, hmem⟩ := mem_children_iff.mp hf
    have hge := getEntry_of_mem_nodup hwf1.2 hmem
    have hgn : getNode (setNode fs tgt FsNode.dir) (src ++ [f]) = some nd := by
      unfold getNode
      rw [if_neg (snoc_ne_nil src f)]
      exact hge
    refine ⟨nd, ?_⟩
    rw [joinPath_eq]
    rw [← h1src (src ++ [f]) (pre_of_append src [f])]
    exact hgn
  have hfnodup : ((setNode fs tgt FsNode.dir).entries.filterMap
      (fun e => stripChild src e.1)).Nodup := children_nodup hwf1.2
  -- the entry loop
  have ENT : ∀ (l : List String), l.Nodup →
      (∀ f ∈ l, ∃ nd, getNode fs (joinPath src f) = some nd) →
      ∀ fs2 : FS, wfFS fs2 →
      (∀ p, src <+: p → getNode fs2 p = getNode fs p) →
      getNode fs2 tgt = some FsNode.dir →
      (∀ f ∈ l, ∀ p, joinPath tgt f <+: p → getNode fs2 p = none) →
      ∃ fuelE fsOut, copyDirEntries fuelE fs2 src tgt l = .ok fsOut ∧
        wfFS fsOut ∧
        (∀ f ∈ l, ∀ rel node,
          getNode fs (joinPath src f ++ rel) = some node →
          getNode fsOut (joinPath tgt f ++ rel) = some node) := by
    intro l
    induction l with
    | nil =>
      intro _ _ fs2 h2wf _ _ _
      exact ⟨0, fs2, by rw [copyDirEntries], h2wf, by simp⟩
    | cons f rest ihl =>
      intro hnodup hmem fs2 h2wf h2src h2tgt h2empty
      have hnd := List.nodup_cons.mp hnodup
      obtain ⟨ndf, hndf⟩ := hmem f (List.mem_cons_self _ _)
      have hndf2 : getNode fs2 (joinPath src f) = some ndf := by
        rw [joinPath_eq, h2src _ (pre_of_append src [f])]
        exact hndf
      have htfne : joinPath tgt f ≠ [] := snoc_ne_nil tgt f
      have htfabs : getNode fs2 (joinPath tgt f) = none :=
        h2empty f (List.mem_cons_self _ _) _ (pre_rfl _)
      have hpartf : getNode fs2 (parentDir (joinPath tgt f))
          = some FsNode.dir := by
        rw [joinPath_eq, parentDir_snoc]
        exact h2tgt
      have hmemrest : ∀ g ∈ rest, ∃ nd,
          getNode fs (joinPath src g) = some nd :=
        fun g hg => hmem g (List.mem_cons_of_mem _ hg)
      cases ndf with
      | file c =>
        have hcf : copyFileSync fs2 (joinPath src f) (joinPath tgt f)
            = .ok (setNode fs2 (joinPath tgt f) (FsNode.file c)) := by
          unfold copyFileSync
          simp only [hndf2]
          rw [if_neg htfne]
          rw [if_neg (by simp [htfabs] :
            ¬ getNode fs2 (joinPath tgt f) = some FsNode.dir)]
          rw [if_pos hpartf]
        have hget3 : ∀ q,
            getNode (setNode fs2 (joinPath tgt f) (FsNode.file c)) q
              = if q = joinPath tgt f then some (FsNode.file c)
                else getNode fs2 q :=
          fun q => getNode_setNode _ htfne q
        have h3wf : wfFS (setNode fs2 (joinPath tgt f) (FsNode.file c)) :=
          wfFS_setNode _ h2wf htfne htfabs hpartf
        have h3src : ∀ p, src <+: p →
            getNode (setNode fs2 (joinPath tgt f) (FsNode.file c)) p
              = getNode fs p := by
          intro p hp
          rw [hget3, if_neg (by
            intro hpe
            subst hpe
            exact no_common_ext hd1 hd2 hp (pre_of_append tgt [f]))]
          exact h2src p hp
        have h3tgt : getNode (setNode fs2 (joinPath tgt f) (FsNode.file c))
            tgt = some FsNode.dir := by
          have hne2 : tgt ≠ joinPath tgt f := by
            intro h
            have hlen := congrArg List.length h
            simp [joinPath] at hlen
          rw [hget3, if_neg hne2]
          exact h2tgt
        have h3empty : ∀ g ∈ rest, ∀ p, joinPath tgt g <+: p →
            getNode (setNode fs2 (joinPath tgt f) (FsNode.file c)) p
              = none := by
          intro g hg p hp
          have hfg : f ≠ g := fun h => hnd.1 (h ▸ hg)
          rw [hget3, if_neg (by
            intro hpe
            subst hpe
            simp only [joinPath_eq] at hp
            exact hfg (pre_snoc_inj (pre_rfl (tgt ++ [f])) hp))]
          exact h2empty g (List.mem_cons_of_mem _ hg) p hp
        obtain ⟨fuelE, fsOut, hok, hwfO, hcopy⟩ :=
          ihl hnd.2 hmemrest (setNode fs2 (joinPath tgt f) (FsNode.file c))
            h3wf h3src h3tgt h3empty
        refine ⟨fuelE, fsOut, ?_, hwfO, ?_⟩
        · rw [copyDirEntries]
          simp only [hndf2, hcf]
          exact hok
        · intro g hg rel node hrel
          rcases List.mem_cons.mp hg with heq | hg2
          · subst heq
            cases rel with
            | nil =>
              simp only [List.append_nil] at hrel ⊢
              rw [hndf] at hrel
              injection hrel with hrel
              have hfr := copyDirEntries_frame_of fuelE
                (copyDirRecursive_frame fuelE) rest _ src tgt fsOut hok
                (joinPath tgt g)
                (by
                  intro g2 hg2 hc
                  simp only [joinPath_eq] at hc
                  have heq2 := pre_snoc_inj hc (pre_rfl (tgt ++ [g]))
                  rw [heq2] at hg2
                  exact hnd.1 hg2)
              rw [hfr, hget3, if_pos rfl, ← hrel]
            | cons a rel2 =>
              exfalso
              have hpre : src <+: joinPath src g ++ (a :: rel2) :=
                pre_trans (pre_of_append src [g])
                  (pre_of_append (joinPath src g) (a :: rel2))
              have hrel2 : getNode fs2 (joinPath src g ++ (a :: rel2))
                  = some node := by
                rw [h2src _ hpre]
                exact hrel
              have hanc := ancestor_dir h2wf (a :: rel2) (joinPath src g)
                node hrel2 (by simp)
              rw [hndf2] at hanc
              exact absurd hanc (by simp)
          · exact hcopy g hg2 rel node hrel
      | dir =>
        have hcnt2 : subtreeCount fs2 (joinPath src f)
            = subtreeCount fs (joinPath src f) :=
          subtreeCount_congr h2wf.2 hwf.2 (snoc_ne_nil src f)
            (fun p hp => h2src p (pre_trans (pre_of_append src [f]) hp))
        have hcntlt : subtreeCount fs (joinPath src f)
            < subtreeCount fs src :=
          subtreeCount_child_lt hsrcne hsrc
        have hM : subtreeCount fs2 (joinPath src f) < N := by
          rw [hcnt2]
          omega
        have hd1f : ¬ joinPath src f <+: joinPath tgt f := by
          intro hc
          exact no_common_ext hd1 hd2 (pre_trans (pre_of_append src [f]) hc)
            (pre_of_append tgt [f])
        have hd2f : ¬ joinPath tgt f <+: joinPath src f := by
          intro hc
          exact no_common_ext hd1 hd2 (pre_of_append src [f])
            (pre_trans (pre_of_append tgt [f]) hc)
        obtain ⟨fuelD, fs3, hokD, h3wf, h3frame, h3tgtf, h3copy⟩ :=
          IH _ hM fs2 (joinPath src f) (joinPath tgt f) (Nat.le_refl _)
            h2wf hndf2 hd1f hd2f
            (by rw [joinPath_eq, parentDir_snoc]; exact h2tgt)
            (h2empty f (List.mem_cons_self _ _))
        have h3src : ∀ p, src <+: p → getNode fs3 p = getNode fs p := by
          intro p hp
          rw [h3frame p (by
            intro hc
            exact no_common_ext hd1 hd2 hp
              (pre_trans (pre_of_append tgt [f]) hc))]
          exact h2src p hp
        have h3tgt : getNode fs3 tgt = some FsNode.dir := by
          rw [h3frame tgt (by
            rw [joinPath_eq]
            exact not_snoc_pre_self)]
          exact h2tgt
        have h3empty : ∀ g ∈ rest, ∀ p, joinPath tgt g <+: p →
            getNode fs3 p = none := by
          intro g hg p hp
          have hfg : f ≠ g := fun h => hnd.1 (h ▸ hg)
          rw [h3frame p (by
            intro hc
            simp only [joinPath_eq] at hc hp
            exact hfg (pre_snoc_inj hc hp))]
          exact h2empty g (List.mem_cons_of_mem _ hg) p hp
        obtain ⟨fuelE, fsOut, hokE, hwfO, hcopy⟩ :=
          ihl hnd.2 hmemrest fs3 h3wf h3src h3tgt h3empty
        refine ⟨max fuelD fuelE, fsOut, ?_, hwfO, ?_⟩
        · rw [copyDirEntries]
          simp only [hndf2]
          rw [copyDirRecursive_mono_le (Nat.le_max_left _ _) hokD]
          exact copyDirEntries_mono_le (Nat.le_max_right _ _) hokE
        · intro g hg rel node hrel
          rcases List.mem_cons.mp hg with heq | hg2
          · subst heq
            have h2rel : getNode fs2 (joinPath src g ++ rel) = some node := by
              rw [h2src _ (pre_trans (pre_of_append src [g])
                (pre_of_append (joinPath src g) rel))]
              exact hrel
            have h3rel := h3copy rel node h2rel
            have hfr := copyDirEntries_frame_of fuelE
              (copyDirRecursive_frame fuelE) rest fs3 src tgt fsOut hokE
              (joinPath tgt g ++ rel)
              (by
                intro g2 hg2 hc
                simp only [joinPath_eq] at hc
                have heq2 := pre_snoc_inj hc (pre_of_append (tgt ++ [g]) rel)
                rw [heq2] at hg2
                exact hnd.1 hg2)
            rw [hfr]
            exact h3rel
          · exact hcopy g hg2 rel node hrel
  obtain ⟨fuelE, fsOut, hokE, hwfO, hcopy⟩ :=
    ENT _ hfnodup h1mem (setNode fs tgt FsNode.dir) hwf1 h1src h1tgt
      (fun f _ => h1empty f)
  have hrun : copyDirRecursive (fuelE + 1) fs src tgt = .ok fsOut := by
    rw [copyDirRecursive]
    simp only [hstep1, hreaddir]
    exact hokE
  have htgtout : getNode fsOut tgt = some FsNode.dir := by
    have hfr := copyDirEntries_frame_of fuelE (copyDirRecursive_frame fuelE)
      _ _ src tgt fsOut hokE tgt
      (by
        intro g hg hc
        simp only [joinPath_eq] at hc
        exact not_snoc_pre_self hc)
    rw [hfr]
    exact h1tgt
  refine ⟨fuelE + 1, fsOut, hrun, hwfO,
    copyDirRecursive_frame _ _ _ _ _ hrun, htgtout, ?_⟩
  intro rel node hrel
  cases rel with
  | nil =>
    simp only [List.append_nil] at hrel ⊢
    rw [hsrc] at hrel
    injection hrel with hrel
    rw [htgtout, ← hrel]
  | cons f rel2 =>
    have hshape : ∀ q : FsPath, q ++ f :: rel2 = joinPath q f ++ rel2 := by
      intro q
      simp [joinPath]
    rw [hshape] at hrel
    rw [hshape]
    have hnode1 : ∃ nd, getNode fs (joinPath src f) = some nd := by
      cases rel2 with
      | nil =>
        simp only [List.append_nil] at hrel
        exact ⟨node, hrel⟩
      | cons b rel3 =>
        exact ⟨FsNode.dir,
          ancestor_dir hwf (b :: rel3) (joinPath src f) node hrel (by simp)⟩
    obtain ⟨nd, hnd1⟩ := hnode1
    have hf : f ∈ (setNode fs tgt FsNode.dir).entries.filterMap
        (fun e => stripChild src e.1) := by
      refine mem_children_iff.mpr ⟨nd, ?_⟩
      apply getNode_some_mem (snoc_ne_nil src f)
      rw [h1src (src ++ [f]) (pre_of_append src [f])]
      rw [← joinPath_eq]
      exact hnd1
    exact hcopy f hf rel2 node hrel

/-! ## Claim C9 -/

/-- C9 counterexample: the claim as stated fails when the parent of
`targetDir` does not exist — `/a` is an existing readable directory, yet
`copyDirRecursive` on target `/x/y` never succeeds, because `mkdirSync`
(without `recursive`) cannot create `/x/y` under the missing `/x`. -/
theorem copyDirRecursive_missing_parent_counterexample :
    ¬ copyDirClaim fsMissingParent ["a"] ["x", "y"] := by
  rintro ⟨fuel, fsOut, hrun, -, -, -⟩
  cases fuel with
  | zero =>
    rw [copyDirRecursive] at hrun
    cases hrun
  | succ m =>
    obtain ⟨fs1, files, h1, h2, h3⟩ := copyDirRecursive_ok_inv hrun
    rcases copyStep1_ok h1 with ⟨-, hex⟩ | ⟨-, -, hpar, -⟩
    · exact absurd hex (by decide)
    · exact absurd hpar (by decide)

/-- C9 (amended): for every call of `Utils.copyDirRecursive(sourceDir,
targetDir)` on a well-formed filesystem where `sourceDir` is an existing
readable directory tree, provided additionally that neither directory is a
prefix of the other, that nothing exists at or below `targetDir`, and that
`targetDir`'s containing directory exists, the call terminates successfully,
creates `targetDir`, after which `targetDir` contains a copy of every file
and every subdirectory of `sourceDir`, recursively, while `sourceDir` itself
is left unchanged. -/
theorem copyDirRecursive_correct (fs : FS) (sourceDir targetDir : FsPath)
    (hwf : wfFS fs)
    (hsrc : getNode fs sourceDir = some FsNode.dir)
    (hd1 : ¬ sourceDir <+: targetDir) (hd2 : ¬ targetDir <+: sourceDir)
    (hpar : getNode fs (parentDir targetDir) = some FsNode.dir)
    (hempty : ∀ e ∈ fs.entries, ¬ targetDir <+: e.1) :
    copyDirClaim fs sourceDir targetDir := by
  have htne : targetDir ≠ [] := by
    intro h
    subst h
    exact hd2 ⟨sourceDir, rfl⟩
  have hemptyP : ∀ p, targetDir <+: p → getNode fs p = none := by
    intro p hp
    have hpne : p ≠ [] := by
      intro h
      subst h
      have := pre_length_le hp
      simp at this
      exact htne this
    apply getNode_none_of_not_mem hpne
    intro e he hep
    exact hempty e he (hep ▸ hp)
  obtain ⟨fuel, fsOut, hrun, hwfO, hframe, htgtd, hcopy⟩ :=
    copyDirAux (subtreeCount fs sourceDir) fs sourceDir targetDir
      (Nat.le_refl _) hwf hsrc hd1 hd2 hpar hemptyP
  refine ⟨fuel, fsOut, hrun, htgtd, hcopy, ?_⟩
  intro rel
  exact hframe (sourceDir ++ rel)
    (fun hc => no_common_ext hd1 hd2 (pre_of_append sourceDir rel) hc)

/-- Witness for the amended C9: copying `/a` (a file plus a subdirectory
with a file) to the fresh sibling `/b`. -/
theorem copyDirRecursive_correct_witness : copyDirClaim fsCopyDemo ["a"] ["b"] :=
  copyDirRecursive_correct fsCopyDemo ["a"] ["b"] (by decide) (by decide)
    (by decide) (by decide) (by decide) (by decide)
